import Mathlib

/-!
Verification development for the video-zenoh-player repository.

Buffers are modelled as lists of naturals (one natural number per byte; well-formed
buffers keep values below 256, but no control flow of the decoder depends
on that bound).  Text fields are modelled as their byte sequences; the source
converts them with String::from_utf8_lossy, which is the identity on the byte
level for valid UTF-8.  Fallible Rust code is modelled with Option; Rust
operations that can fault on an out-of-bounds access (indexing, slicing) are
additionally modelled in a checked variant returning Except, where
Except.error marks an access outside the buffer.
-/

set_option linter.unusedVariables false

/-- Alignment of a parse position to the next multiple of 4, as the expression
(pos + 3) AND NOT 3 computes in decode_cdr_compressed_video (src/main.rs). -/
def align4 (pos : Nat) : Nat := (pos + 3) / 4 * 4

/-- Value of four bytes as a u32, little- or big-endian, as u32::from_le_bytes
and u32::from_be_bytes compute it in decode_cdr_compressed_video. -/
def u32_from_bytes (le : Bool) (b0 b1 b2 b3 : Nat) : Nat :=
  if le then b0 + 256 * b1 + 65536 * b2 + 16777216 * b3
  else b3 + 256 * b2 + 65536 * b1 + 16777216 * b0

/-- The read_u32 closure of decode_cdr_compressed_video (src/main.rs 499-512):
align the position to 4 bytes, fail if fewer than 4 bytes remain, otherwise
read one u32 and advance.  Returns the value and the updated position. -/
def read_u32 (le : Bool) (buf : List Nat) (pos : Nat) : Option (Nat × Nat) :=
  let p := align4 pos
  if p + 4 > buf.length then none
  else some (u32_from_bytes le (buf.getD p 0) (buf.getD (p + 1) 0)
      (buf.getD (p + 2) 0) (buf.getD (p + 3) 0), p + 4)

/-- decode_cdr_compressed_video (src/main.rs 491-542): reject buffers shorter
than the 4-byte encapsulation header, read the endianness flag from byte 1,
then parse sec, nsec, the length-prefixed frame_id (skipped), the
length-prefixed data bytes, and the length-prefixed null-terminated format
string, failing whenever a declared length would pass the end of the buffer
and whenever the declared format length is zero.  In each read_u32 result the
first component is the value read and the second the updated position. -/
def decode_cdr_compressed_video (buf : List Nat) : Option (List Nat × List Nat) :=
  if buf.length < 4 then none
  else
    let le := buf.getD 1 0 == 1
    (read_u32 le buf 4).bind fun sp =>
    (read_u32 le buf sp.2).bind fun np =>
    (read_u32 le buf np.2).bind fun fp =>
    if fp.2 + fp.1 > buf.length then none
    else
      (read_u32 le buf (fp.2 + fp.1)).bind fun dp =>
      if dp.2 + dp.1 > buf.length then none
      else
        let data := (buf.drop dp.2).take dp.1
        (read_u32 le buf (dp.2 + dp.1)).bind fun gp =>
        if gp.1 = 0 ∨ gp.2 + gp.1 > buf.length then none
        else some (data, (buf.drop gp.2).take (gp.1 - 1))

/-- Bounds-checked variant of read_u32: every byte access goes through
List.get?, and Except.error () marks a read outside the buffer (where the
Rust slice buf[p..p+4] would fault); Except.ok none is a clean parse
failure. -/
def read_u32_chk (le : Bool) (buf : List Nat) (pos : Nat) :
    Except Unit (Option (Nat × Nat)) :=
  let p := align4 pos
  if p + 4 > buf.length then .ok none
  else
    match buf.get? p, buf.get? (p + 1), buf.get? (p + 2), buf.get? (p + 3) with
    | some b0, some b1, some b2, some b3 =>
        .ok (some (u32_from_bytes le b0 b1 b2 b3, p + 4))
    | _, _, _, _ => .error ()

/-- Bounds-checked slice buf[pos..pos+n]: Except.error () when the range pokes
past the end of the buffer (where the Rust slice would fault). -/
def slice_chk (buf : List Nat) (pos n : Nat) : Except Unit (List Nat) :=
  if pos + n ≤ buf.length then .ok ((buf.drop pos).take n) else .error ()

/-- Sequencing for checked parsing: propagate an out-of-bounds fault, stop on a
clean parse failure, continue otherwise. -/
def bindParse (x : Except Unit (Option α)) (f : α → Except Unit (Option β)) :
    Except Unit (Option β) :=
  match x with
  | .error e => .error e
  | .ok none => .ok none
  | .ok (some a) => f a

/-- decode_cdr_compressed_video with every buffer access bounds-checked:
Except.error () if and only if some access of the source function would touch
a byte outside the buffer. -/
def decode_cdr_compressed_video_chk (buf : List Nat) :
    Except Unit (Option (List Nat × List Nat)) :=
  if buf.length < 4 then .ok none
  else
    match buf.get? 1 with
    | none => .error ()
    | some e =>
      let le := e == 1
      bindParse (read_u32_chk le buf 4) fun sp =>
      bindParse (read_u32_chk le buf sp.2) fun np =>
      bindParse (read_u32_chk le buf np.2) fun fp =>
      if fp.2 + fp.1 > buf.length then .ok none
      else
        bindParse (read_u32_chk le buf (fp.2 + fp.1)) fun dp =>
        if dp.2 + dp.1 > buf.length then .ok none
        else
          (slice_chk buf dp.2 dp.1).bind fun data =>
          bindParse (read_u32_chk le buf (dp.2 + dp.1)) fun gp =>
          if gp.1 = 0 ∨ gp.2 + gp.1 > buf.length then .ok none
          else
            (slice_chk buf gp.2 (gp.1 - 1)).bind fun fmt =>
            .ok (some (data, fmt))

/-- Little- or big-endian 4-byte encoding of a u32 value, for constructing
wire-format buffers as described by the spec (4.1 and 6). -/
def encodeU32 (le : Bool) (v : Nat) : List Nat :=
  if le then [v % 256, v / 256 % 256, v / 65536 % 256, v / 16777216 % 256]
  else [v / 16777216 % 256, v / 65536 % 256, v / 256 % 256, v % 256]

/-- Zero padding taking a buffer of length n up to the next multiple of 4, so
that the following u32 field sits at a 4-byte-aligned position. -/
def pad4 (n : Nat) : List Nat := List.replicate (align4 n - n) 0

/-- Construction of a valid wire-format buffer, following the spec (4.1, 6, 8):
the 4-byte envelope header whose byte 1 selects the endianness, then sec,
nsec, the length-prefixed null-terminated frame_id, the length-prefixed data
bytes and the length-prefixed null-terminated format, with zero padding so
that every u32 field sits at a 4-byte-aligned position.  The running position
after the frame_id field is 17 + frameId.length, so the data length field
sits at align4 (17 + frameId.length) and the format length field at
align4 (align4 (17 + frameId.length) + 4 + data.length). -/
def encode_cdr_compressed_video (le : Bool) (sec nsec : Nat)
    (frameId data format : List Nat) : List Nat :=
  [0, if le then 1 else 0, 0, 0] ++ encodeU32 le sec ++ encodeU32 le nsec
    ++ encodeU32 le (frameId.length + 1) ++ frameId ++ [0]
    ++ pad4 (17 + frameId.length)
    ++ encodeU32 le data.length ++ data
    ++ pad4 (align4 (17 + frameId.length) + 4 + data.length)
    ++ encodeU32 le (format.length + 1) ++ format ++ [0]

/-- h264_contains_keyframe (src/main.rs 451-478) from scan index i: while
i + 4 < data.len(), look for a 4-byte (00 00 00 01) start code, then for a
3-byte (00 00 01) start code; on a match test the low 5 bits of the following
byte for NAL unit type 5 (IDR) or 7 (SPS) and advance past the matched code,
otherwise advance one byte.  The inner bound checks mirror the source. -/
def scanFrom (data : List Nat) (i : Nat) : Bool :=
  if h : i + 4 < data.length then
    if data.getD i 0 = 0 ∧ data.getD (i + 1) 0 = 0 ∧ data.getD (i + 2) 0 = 0 ∧
        data.getD (i + 3) 0 = 1 then
      if i + 4 < data.length then
        if data.getD (i + 4) 0 &&& 31 = 5 ∨ data.getD (i + 4) 0 &&& 31 = 7 then true
        else scanFrom data (i + 4)
      else scanFrom data (i + 4)
    else if data.getD i 0 = 0 ∧ data.getD (i + 1) 0 = 0 ∧ data.getD (i + 2) 0 = 1 then
      if i + 3 < data.length then
        if data.getD (i + 3) 0 &&& 31 = 5 ∨ data.getD (i + 3) 0 &&& 31 = 7 then true
        else scanFrom data (i + 3)
      else scanFrom data (i + 3)
    else scanFrom data (i + 1)
  else false
termination_by data.length - i
decreasing_by
  all_goals omega

/-- h264_contains_keyframe (src/main.rs 451-478): the scan started at 0. -/
def h264_contains_keyframe (data : List Nat) : Bool := scanFrom data 0

/-- Occurrence, at index i, of a NAL unit whose 5 low type bits equal 5 or 7
immediately following a 3-byte or a 4-byte start code, all bytes inside the
buffer; this is the containment notion of the spec sentence for the
KeyframeScanner. -/
def kf_nal_at (d : List Nat) (i : Nat) : Prop :=
  (i + 4 < d.length ∧ d.getD i 0 = 0 ∧ d.getD (i + 1) 0 = 0 ∧
      d.getD (i + 2) 0 = 0 ∧ d.getD (i + 3) 0 = 1 ∧
      (d.getD (i + 4) 0 &&& 31 = 5 ∨ d.getD (i + 4) 0 &&& 31 = 7)) ∨
  (i + 3 < d.length ∧ d.getD i 0 = 0 ∧ d.getD (i + 1) 0 = 0 ∧
      d.getD (i + 2) 0 = 1 ∧
      (d.getD (i + 3) 0 &&& 31 = 5 ∨ d.getD (i + 3) 0 &&& 31 = 7))

instance (d : List Nat) (i : Nat) : Decidable (kf_nal_at d i) := by
  unfold kf_nal_at; infer_instance

/-- Occurrence as the scanner can actually reach it: same as kf_nal_at but the
3-byte-code disjunct additionally requires i + 4 < length, because the source
loop only runs while i + 4 < data.len(). -/
def kf_nal_at_scanned (d : List Nat) (i : Nat) : Prop :=
  (i + 4 < d.length ∧ d.getD i 0 = 0 ∧ d.getD (i + 1) 0 = 0 ∧
      d.getD (i + 2) 0 = 0 ∧ d.getD (i + 3) 0 = 1 ∧
      (d.getD (i + 4) 0 &&& 31 = 5 ∨ d.getD (i + 4) 0 &&& 31 = 7)) ∨
  (i + 4 < d.length ∧ d.getD i 0 = 0 ∧ d.getD (i + 1) 0 = 0 ∧
      d.getD (i + 2) 0 = 1 ∧
      (d.getD (i + 3) 0 &&& 31 = 5 ∨ d.getD (i + 3) 0 &&& 31 = 7))

instance (d : List Nat) (i : Nat) : Decidable (kf_nal_at_scanned d i) := by
  unfold kf_nal_at_scanned; infer_instance

/-- One step of the ingest loop in zenoh_sub::spawn (src/zenoh_sub.rs 26-57):
what is forwarded to the elementary-stream channel for one received payload.
Empty payloads are skipped; on wire-decode success the data bytes are
forwarded unless empty; on wire-decode failure the raw payload is forwarded.
The decode argument abstracts cdr::decode_compressed_video. -/
def ingestForward (decode : List Nat → Option (List Nat × List Nat))
    (payload : List Nat) : Option (List Nat) :=
  if payload.isEmpty then none
  else
    match decode payload with
    | some df => if df.1.isEmpty then none else some df.1
    | none => some payload

/-- The ingest loop over a finite sequence of received payloads: the list of
units forwarded to the elementary-stream channel, in order. -/
def ingestLoop (decode : List Nat → Option (List Nat × List Nat)) :
    List (List Nat) → List (List Nat)
  | [] => []
  | p :: rest =>
    match ingestForward decode p with
    | some u => u :: ingestLoop decode rest
    | none => ingestLoop decode rest

/-- The ordered hardware decoder candidates of decoder::run_loop
(src/decoder.rs 47-52). -/
def hw_decoders : List String :=
  ["vah264dec", "vaapih264dec", "nvh264dec", "vtdec"]

/-- The software fallback decoder of decoder::run_loop (src/decoder.rs 65). -/
def software_fallback : String := "avdec_h264"

/-- Backend selection of decoder::run_loop (src/decoder.rs 45-70): the first
hardware candidate the runtime can instantiate, else the software fallback;
none models the fatal expect when even the fallback is unavailable.  The
avail argument abstracts whether ElementFactory::make(name).build() succeeds. -/
def select_decoder (avail : String → Bool) : Option String :=
  match hw_decoders.find? avail with
  | some n => some n
  | none => if avail software_fallback then some software_fallback else none

/-- What recv_timeout on the elementary-stream channel yields in one pump
iteration of decoder::run_loop (src/decoder.rs 201-205): a timeout, a
disconnection, or a unit of data whose push into appsrc succeeds or fails. -/
inductive RecvEvent
  | timeout
  | disconnected
  | data (pushOk : Bool)
deriving DecidableEq

/-- One iteration of the pump loop of decoder::run_loop (src/decoder.rs
195-224): the got_error flag as read at the top of the iteration, and the
recv_timeout outcome consulted when the flag is false. -/
structure PumpIter where
  errFlag : Bool
  recv : RecvEvent
deriving DecidableEq

/-- Why the pump loop of decoder::run_loop broke out. -/
inductive PumpBreak
  | busError
  | disconnect
  | pushFail
deriving DecidableEq

/-- The pump loop of decoder::run_loop (src/decoder.rs 195-224) over a finite
trace of iterations: break when the bus thread has flagged an error, when the
channel is disconnected, or when a push into appsrc fails; keep looping on
timeouts and successful pushes.  none means the trace ended with the loop
still running. -/
def pumpLoop : List PumpIter → Option PumpBreak
  | [] => none
  | it :: rest =>
    if it.errFlag then some .busError
    else
      match it.recv with
      | .timeout => pumpLoop rest
      | .disconnected => some .disconnect
      | .data ok => if ok then pumpLoop rest else some .pushFail

/-- Outcome of one outer iteration of decoder::run_loop. -/
inductive CycleOutcome
  | keepPumping
  | restartAfterBackoff
  | exitLoop
deriving DecidableEq

/-- One outer iteration of decoder::run_loop (src/decoder.rs 19-240): pump
until the pump loop breaks, tear the pipeline down, then restart after the
backoff sleep exactly when got_error is set at the final check (src/decoder.rs
234-239), otherwise leave the restart loop.  finalErrFlag is the value of
got_error at that final check. -/
def cycleOutcome (trace : List PumpIter) (finalErrFlag : Bool) : CycleOutcome :=
  match pumpLoop trace with
  | none => .keepPumping
  | some _ => if finalErrFlag then .restartAfterBackoff else .exitLoop

/-- Capacity of the decoded-frame channel created in main
(src/main.rs 34: mpsc::sync_channel(2)). -/
def rgba_channel_capacity : Nat := 2

/-- rgba_tx.try_send in the appsink callback (src/decoder.rs 141): enqueue the
new frame when the bounded channel has room, otherwise drop it; the call never
blocks and its error result is discarded. -/
def try_send (q : List α) (x : α) : List α :=
  if q.length < rgba_channel_capacity then q ++ [x] else q

/-- A burst of frames produced while the consumer is not draining: each frame
is offered to the channel with try_send in order. -/
def send_burst (q : List α) (xs : List α) : List α := xs.foldl try_send q

/-- The drain loop of VideoPlayerApp::update (src/gui.rs 77-84): while
try_recv succeeds, remember only the last received frame. -/
def drain_loop (latest : Option α) : List α → Option α
  | [] => latest
  | x :: rest => drain_loop (some x) rest

/-- The frame the GUI displays after one poll cycle over channel contents q. -/
def drain_latest (q : List α) : Option α := drain_loop none q

/-! Helper lemmas. -/

theorem get?_eq_some_getD (l : List Nat) (n : Nat) (h : n < l.length) :
    l.get? n = some (l.getD n 0) := by
  rw [List.getD_eq_getD_get?]
  cases hg : l.get? n with
  | none => exact absurd (List.get?_eq_none.mp hg) (Nat.not_le.mpr h)
  | some a => rfl

theorem align4_ge (n : Nat) : n ≤ align4 n := by
  unfold align4; omega

theorem align4_mod4 (n : Nat) : align4 n % 4 = 0 := by
  unfold align4; omega

theorem align4_of_mod (n : Nat) (h : n % 4 = 0) : align4 n = n := by
  unfold align4; omega

theorem length_encodeU32 (le : Bool) (v : Nat) : (encodeU32 le v).length = 4 := by
  cases le <;> simp [encodeU32]

theorem pad4_length (n : Nat) : (pad4 n).length = align4 n - n := by
  simp [pad4]

theorem drop_take_append (pre mid post : List Nat) :
    ((pre ++ (mid ++ post)).drop pre.length).take mid.length = mid := by
  rw [List.drop_left, List.take_left]

theorem find?_append_first (p : α → Bool) (l₁ l₂ : List α) :
    (l₁ ++ l₂).find? p =
      match l₁.find? p with
      | some x => some x
      | none => l₂.find? p := by
  induction l₁ with
  | nil => simp
  | cons a l ih =>
    by_cases h : p a
    · simp [List.find?_cons, h]
    · simp only [List.cons_append, List.find?_cons, h]
      simpa [h] using ih

theorem send_burst_eq (q xs : List α) :
    send_burst q xs = q ++ xs.take (rgba_channel_capacity - q.length) := by
  induction xs generalizing q with
  | nil => simp [send_burst]
  | cons x xs ih =>
    have hstep : send_burst q (x :: xs) = send_burst (try_send q x) xs := rfl
    rw [hstep]
    by_cases h : q.length < rgba_channel_capacity
    · have ht : try_send q x = q ++ [x] := by simp [try_send, h]
      rw [ht, ih]
      obtain ⟨k, hk⟩ : ∃ k, rgba_channel_capacity - q.length = k + 1 :=
        ⟨rgba_channel_capacity - q.length - 1, by omega⟩
      have hk2 : rgba_channel_capacity - (q ++ [x]).length = k := by
        simp only [List.length_append, List.length_cons, List.length_nil]
        omega
      rw [hk, hk2, List.take_succ_cons, List.append_assoc, List.singleton_append]
    · have ht : try_send q x = q := by simp [try_send, h]
      have hz : rgba_channel_capacity - q.length = 0 := by omega
      rw [ht, ih, hz, List.take_zero]
      simp

theorem drain_loop_some (q : List α) (x : α) :
    drain_loop (some x) q = (x :: q).getLast? := by
  induction q generalizing x with
  | nil => simp [drain_loop]
  | cons y rest ih =>
    show drain_loop (some y) rest = _
    rw [ih y, List.getLast?_cons_cons]

theorem drain_latest_eq_getLast? (q : List α) : drain_latest q = q.getLast? := by
  cases q with
  | nil => rfl
  | cons y rest => exact drain_loop_some rest y

/-! Claim theorems. -/

/-- C6: the claim says a push failure takes the restart path (teardown,
backoff, rebuild) and never terminates the supervisor restart loop; the code
does not set got_error on a push failure, so a push failure with no bus error
tears down and leaves the restart loop as if it were a clean shutdown.  This
theorem evaluates the model of decoder::run_loop at that failing input. -/
theorem c6_push_failure_exits_restart_loop :
    pumpLoop [⟨false, RecvEvent.data false⟩] = some PumpBreak.pushFail ∧
    cycleOutcome [⟨false, RecvEvent.data false⟩] false = CycleOutcome.exitLoop ∧
    cycleOutcome [⟨false, RecvEvent.data false⟩] false ≠ CycleOutcome.restartAfterBackoff := by
  refine ⟨rfl, rfl, ?_⟩
  decide

/-- C7: for every decoder and every non-empty payload on which it fails, the
ingest step forwards the raw payload bytes unchanged, and the ingest loop
keeps processing the remaining messages (the failure is not fatal). -/
theorem c7_decode_failure_forwards_raw
    (decode : List Nat → Option (List Nat × List Nat))
    (payload : List Nat) (rest : List (List Nat))
    (hne : payload ≠ []) (hfail : decode payload = none) :
    ingestForward decode payload = some payload ∧
    ingestLoop decode (payload :: rest) = payload :: ingestLoop decode rest := by
  have hf : ingestForward decode payload = some payload := by
    unfold ingestForward
    rw [if_neg (by simpa using hne), hfail]
  refine ⟨hf, ?_⟩
  simp only [ingestLoop, hf]

/-- C7 witness: a concrete failing decoder and payload. -/
theorem c7_decode_failure_forwards_raw_witness :
    ingestForward (fun _ => none) [1] = some [1] ∧
    ingestLoop (fun _ => none) [[1]] = [1] :: ingestLoop (fun _ => none) [] :=
  c7_decode_failure_forwards_raw (fun _ => none) [1] [] (by decide) rfl

/-- C8: backend selection returns the first available candidate of the fixed
ordered list (all hardware candidates, then the software fallback), and is
fatal (none) exactly when every candidate, the software fallback included, is
unavailable.  It consults nothing but the availability predicate. -/
theorem c8_select_first_available (avail : String → Bool) :
    select_decoder avail = (hw_decoders ++ [software_fallback]).find? avail ∧
    (select_decoder avail = none ↔
      ∀ n ∈ hw_decoders ++ [software_fallback], avail n = false) := by
  have h1 : select_decoder avail = (hw_decoders ++ [software_fallback]).find? avail := by
    unfold select_decoder
    rw [find?_append_first]
    cases h : hw_decoders.find? avail with
    | none =>
      by_cases hs : avail software_fallback
      · simp [List.find?, hs]
      · simp [List.find?, hs]
    | some n => rfl
  refine ⟨h1, ?_⟩
  rw [h1, List.find?_eq_none]
  constructor
  · intro h n hn
    simpa using h n hn
  · intro h n hn
    simp [h n hn]

/-- C9 counterexample: a burst of three frames into the empty 2-slot channel
keeps the first two (try_send rejects the newest when full), so the consumer
displays frame 2, not the most recently decoded frame 3. -/
theorem c9_counterexample :
    ¬ ∀ xs : List Nat, xs ≠ [] →
        drain_latest (send_burst [] xs) = xs.getLast? :=
  fun h => absurd (h [1, 2, 3] (by decide)) (by decide)

/-- C9 amended: the frame channel has capacity 2 (at least 2); try_send never
blocks and drops the newly decoded frame when the channel is full, so a burst
appends only frames up to the free capacity; the per-poll drain keeps only the
last channel element; hence after a burst the consumer displays the most
recently decoded frame that was accepted, which equals the most recently
decoded frame overall exactly when the burst fits the free capacity. -/
theorem c9_bounded_nonblocking_latest_accepted (q xs : List Nat) :
    2 ≤ rgba_channel_capacity ∧
    send_burst q xs = q ++ xs.take (rgba_channel_capacity - q.length) ∧
    (q.length ≤ rgba_channel_capacity →
      (send_burst q xs).length ≤ rgba_channel_capacity) ∧
    drain_latest (send_burst q xs) =
      (q ++ xs.take (rgba_channel_capacity - q.length)).getLast? ∧
    (q = [] → xs.length ≤ rgba_channel_capacity →
      drain_latest (send_burst q xs) = xs.getLast?) := by
  refine ⟨le_refl 2, send_burst_eq q xs, ?_, ?_, ?_⟩
  · intro hq
    rw [send_burst_eq]
    have := List.length_take (rgba_channel_capacity - q.length) xs
    simp only [List.length_append]
    omega
  · rw [send_burst_eq, drain_latest_eq_getLast?]
  · intro hq hlen
    subst hq
    rw [send_burst_eq, drain_latest_eq_getLast?]
    simp only [List.length_nil, Nat.sub_zero, List.nil_append]
    rw [List.take_of_length_le hlen]

/-- C9 witness: a burst of two frames into the empty channel is fully
accepted and the consumer displays the newest one. -/
theorem c9_bounded_nonblocking_latest_accepted_witness :
    drain_latest (send_burst ([] : List Nat) [5, 6]) = ([5, 6] : List Nat).getLast? :=
  (c9_bounded_nonblocking_latest_accepted [] [5, 6]).2.2.2.2 rfl (by decide)

/-- C10: ingest forwards a unit u for a payload exactly when the payload is
non-empty and either wire decode fails and u is the raw payload, or wire
decode succeeds with non-empty data u; in particular empty payloads and
successfully decoded records with empty data are dropped. -/
theorem c10_ingest_forward_iff
    (decode : List Nat → Option (List Nat × List Nat))
    (payload u : List Nat) :
    ingestForward decode payload = some u ↔
      payload ≠ [] ∧
        ((decode payload = none ∧ u = payload) ∨
         (∃ fmt, decode payload = some (u, fmt) ∧ u ≠ [])) := by
  unfold ingestForward
  by_cases hemp : payload.isEmpty
  · have : payload = [] := by simpa using hemp
    simp [hemp, this]
  · have hne : payload ≠ [] := by simpa using hemp
    rw [if_neg (by simpa using hemp)]
    cases hd : decode payload with
    | none => simp [hne, eq_comm]
    | some df =>
      obtain ⟨dta, fm⟩ := df
      by_cases hde : dta.isEmpty
      · have hdnil : dta = [] := by simpa using hde
        subst hdnil
        simp [hne]
      · have hdne : dta ≠ [] := by simpa using hde
        show (if dta.isEmpty then none else some dta) = some u ↔ _
        rw [if_neg hde]
        constructor
        · intro h
          obtain rfl : dta = u := by simpa using h
          exact ⟨hne, Or.inr ⟨fm, rfl, hdne⟩⟩
        · rintro ⟨-, h | ⟨fmt, heq, hu⟩⟩
          · exact absurd h.1 (by simp)
          · have h1 : dta = u := by
              have h2 := heq
              simp only [Option.some.injEq, Prod.mk.injEq] at h2
              exact h2.1
            rw [h1]

theorem read_u32_chk_eq (le : Bool) (buf : List Nat) (pos : Nat) :
    read_u32_chk le buf pos = .ok (read_u32 le buf pos) := by
  simp only [read_u32_chk, read_u32]
  by_cases h : align4 pos + 4 > buf.length
  · simp only [if_pos h]
  · simp only [if_neg h]
    push_neg at h
    rw [get?_eq_some_getD buf (align4 pos) (by omega),
        get?_eq_some_getD buf (align4 pos + 1) (by omega),
        get?_eq_some_getD buf (align4 pos + 2) (by omega),
        get?_eq_some_getD buf (align4 pos + 3) (by omega)]

theorem bindParse_ok_bind (o : Option α) (f : α → Except Unit (Option β))
    (g : α → Option β) (hfg : ∀ a, f a = .ok (g a)) :
    bindParse (.ok o) f = .ok (o.bind g) := by
  cases o with
  | none => rfl
  | some a => simpa using hfg a

theorem decode_chk_eq (buf : List Nat) :
    decode_cdr_compressed_video_chk buf = .ok (decode_cdr_compressed_video buf) := by
  by_cases h4 : buf.length < 4
  · simp only [decode_cdr_compressed_video_chk, decode_cdr_compressed_video, if_pos h4]
  · simp only [decode_cdr_compressed_video_chk, decode_cdr_compressed_video, if_neg h4]
    rw [get?_eq_some_getD buf 1 (by omega)]
    dsimp only
    rw [read_u32_chk_eq]
    apply bindParse_ok_bind
    intro sp
    rw [read_u32_chk_eq]
    apply bindParse_ok_bind
    intro np
    rw [read_u32_chk_eq]
    apply bindParse_ok_bind
    intro fp
    by_cases hc1 : fp.2 + fp.1 > buf.length
    · simp only [if_pos hc1]
    · simp only [if_neg hc1]
      rw [read_u32_chk_eq]
      apply bindParse_ok_bind
      intro dp
      by_cases hc2 : dp.2 + dp.1 > buf.length
      · simp only [if_pos hc2]
      · simp only [if_neg hc2]
        have hs1 : slice_chk buf dp.2 dp.1 = .ok ((buf.drop dp.2).take dp.1) := by
          unfold slice_chk
          rw [if_pos (by omega)]
        rw [hs1]
        show bindParse (read_u32_chk (buf.getD 1 0 == 1) buf (dp.2 + dp.1)) _ = _
        rw [read_u32_chk_eq]
        apply bindParse_ok_bind
        intro gp
        by_cases hc3 : gp.1 = 0 ∨ gp.2 + gp.1 > buf.length
        · simp only [if_pos hc3]
        · simp only [if_neg hc3]
          push_neg at hc3
          have hs2 : slice_chk buf gp.2 (gp.1 - 1) = .ok ((buf.drop gp.2).take (gp.1 - 1)) := by
            unfold slice_chk
            rw [if_pos (by omega)]
          rw [hs2]
          rfl

/-- C1: the wire decoder is total and in-bounds at its interface: the
bounds-checked decoder, in which every buffer access of the source (indexing
and slicing included) is verified, never faults and agrees with the total
decoder on every input; and every buffer shorter than 4 bytes is rejected.
Together with the checks inside decode_cdr_compressed_video this shows that
whenever a declared length field would read past the end of the buffer the
function fails with none instead of reading out of bounds. -/
theorem c1_decode_total_in_bounds (buf : List Nat) :
    decode_cdr_compressed_video_chk buf = .ok (decode_cdr_compressed_video buf) ∧
    (buf.length < 4 → decode_cdr_compressed_video buf = none) := by
  refine ⟨decode_chk_eq buf, ?_⟩
  intro h
  simp only [decode_cdr_compressed_video, if_pos h]

/-- C1 witness: a 3-byte buffer is rejected with no out-of-bounds access. -/
theorem c1_decode_total_in_bounds_witness :
    decode_cdr_compressed_video [0, 1, 0] = none :=
  (c1_decode_total_in_bounds [0, 1, 0]).2 (by decide)

/-- C3: the claim requires both zero-length text fields to be rejected, but
the code accepts a declared frame_id length of 0: on the buffer below
(header, sec, nsec, frame_id length 0, data length 0, format length 5 with
bytes "h264" and the null terminator) decode succeeds; a declared format
length of 0 is rejected, as on the second buffer. -/
theorem c3_zero_frame_id_len_accepted :
    decode_cdr_compressed_video
        [0, 1, 0, 0, 0, 0, 0, 0, 0, 0, 0, 0, 0, 0, 0, 0, 0, 0, 0, 0,
         5, 0, 0, 0, 104, 50, 54, 52, 0]
      = some ([], [104, 50, 54, 52]) ∧
    decode_cdr_compressed_video
        [0, 1, 0, 0, 0, 0, 0, 0, 0, 0, 0, 0, 0, 0, 0, 0, 0, 0, 0, 0,
         0, 0, 0, 0]
      = none := by
  constructor <;> decide

/-- C4 counterexample: decode can succeed with an empty format string.  On
the buffer below the declared format length is 1, so the format field is just
the null terminator and the decoded format is empty while decode succeeds. -/
theorem c4_counterexample :
    ¬ ∀ buf d f, decode_cdr_compressed_video buf = some (d, f) → f ≠ [] :=
  fun h =>
    h [0, 1, 0, 0, 0, 0, 0, 0, 0, 0, 0, 0, 1, 0, 0, 0, 0, 0, 0, 0,
       0, 0, 0, 0, 1, 0, 0, 0, 0]
      [] [] (by decide) rfl

/-- C4 amended: on success the returned format string is the declared format
field minus its final byte (the null terminator): there are a position p and
a nonzero declared length n with p + n within the buffer such that the format
equals take (n - 1) of the buffer from p.  Hence the format has length n - 1
and is empty exactly when the declared length is 1; the data may be empty as
well, and non-emptiness of the returned format is not guaranteed. -/
theorem c4_format_from_nonzero_declared_field (buf d f : List Nat)
    (h : decode_cdr_compressed_video buf = some (d, f)) :
    ∃ p n, n ≠ 0 ∧ p + n ≤ buf.length ∧ f = (buf.drop p).take (n - 1) := by
  simp only [decode_cdr_compressed_video] at h
  split at h
  · exact absurd h (by simp)
  · simp only [Option.bind_eq_some] at h
    obtain ⟨sp, hsp, h⟩ := h
    obtain ⟨np, hnp, h⟩ := h
    obtain ⟨fp, hfp, h⟩ := h
    split at h
    · exact absurd h (by simp)
    · simp only [Option.bind_eq_some] at h
      obtain ⟨dp, hdp, h⟩ := h
      split at h
      · exact absurd h (by simp)
      · simp only [Option.bind_eq_some] at h
        obtain ⟨gp, hgp, h⟩ := h
        split at h
        · exact absurd h (by simp)
        · rename_i hcond
          push_neg at hcond
          obtain ⟨hf, -⟩ := Option.some.injEq _ _ ▸ h
          refine ⟨gp.2, gp.1, hcond.1, by omega, ?_⟩
          have := (Option.some.injEq _ _).mp h
          exact ((Prod.mk.injEq _ _ _ _).mp this).2.symm

/-- C4 witness: the amended statement at the concrete buffer whose declared
format length is 1. -/
theorem c4_format_from_nonzero_declared_field_witness :
    ∃ p n, n ≠ 0 ∧
      p + n ≤ ([0, 1, 0, 0, 0, 0, 0, 0, 0, 0, 0, 0, 1, 0, 0, 0, 0, 0, 0, 0,
          0, 0, 0, 0, 1, 0, 0, 0, 0] : List Nat).length ∧
      ([] : List Nat) =
        (([0, 1, 0, 0, 0, 0, 0, 0, 0, 0, 0, 0, 1, 0, 0, 0, 0, 0, 0, 0,
          0, 0, 0, 0, 1, 0, 0, 0, 0] : List Nat).drop p).take (n - 1) :=
  c4_format_from_nonzero_declared_field
    [0, 1, 0, 0, 0, 0, 0, 0, 0, 0, 0, 0, 1, 0, 0, 0, 0, 0, 0, 0,
     0, 0, 0, 0, 1, 0, 0, 0, 0] [] [] (by decide)

theorem read_u32_encode (le : Bool) (pre post : List Nat) (v pos : Nat)
    (hpos : align4 pos = pre.length) (hv : v < 4294967296) :
    read_u32 le (pre ++ (encodeU32 le v ++ post)) pos = some (v, pre.length + 4) := by
  have hlen : (pre ++ (encodeU32 le v ++ post)).length = pre.length + (4 + post.length) := by
    simp [length_encodeU32]
  have hb : ∀ k, k < 4 →
      (pre ++ (encodeU32 le v ++ post)).getD (pre.length + k) 0 =
        (encodeU32 le v).getD k 0 := by
    intro k hk
    rw [List.getD_append_right _ _ _ _ (by omega), Nat.add_sub_cancel_left,
        List.getD_append _ _ _ _ (by rw [length_encodeU32]; omega)]
  have h0 := hb 0 (by omega)
  rw [Nat.add_zero] at h0
  simp only [read_u32, hpos]
  rw [if_neg (by omega)]
  rw [h0, hb 1 (by omega), hb 2 (by omega), hb 3 (by omega)]
  cases le <;> simp [encodeU32, u32_from_bytes] <;> omega


/-- C2: round trip.  For every validly constructed wire-format buffer (either
endianness; the three length prefixes must fit in a u32, which is inherent to
the length-prefixed format), decode succeeds and returns exactly the data
bytes and the format string used to construct the buffer. -/
theorem c2_decode_encode_roundtrip (le : Bool) (sec nsec : Nat)
    (fid data fmt : List Nat)
    (hsec : sec < 4294967296) (hnsec : nsec < 4294967296)
    (hfid : fid.length + 1 < 4294967296) (hdata : data.length < 4294967296)
    (hfmt : fmt.length + 1 < 4294967296) :
    decode_cdr_compressed_video (encode_cdr_compressed_video le sec nsec fid data fmt)
      = some (data, fmt) := by
  have hge1 : 17 + fid.length ≤ align4 (17 + fid.length) := align4_ge _
  have hge2 : align4 (17 + fid.length) + 4 + data.length ≤
      align4 (align4 (17 + fid.length) + 4 + data.length) := align4_ge _
  have hElen : (encode_cdr_compressed_video le sec nsec fid data fmt).length =
      align4 (align4 (17 + fid.length) + 4 + data.length) + 4 + fmt.length + 1 := by
    simp only [encode_cdr_compressed_video, List.length_append, List.length_cons,
      List.length_nil, length_encodeU32, pad4_length, align4]
    omega
  have hflag : ((encode_cdr_compressed_video le sec nsec fid data fmt).getD 1 0 == 1) = le := by
    cases le <;>
      simp [encode_cdr_compressed_video, List.getD_cons_succ, List.getD_cons_zero]
  have hd1 : encode_cdr_compressed_video le sec nsec fid data fmt =
      [0, if le then 1 else 0, 0, 0] ++ (encodeU32 le sec ++
        (encodeU32 le nsec ++ (encodeU32 le (fid.length + 1) ++ (fid ++ ([0] ++
        (pad4 (17 + fid.length) ++ (encodeU32 le data.length ++ (data ++
        (pad4 (align4 (17 + fid.length) + 4 + data.length) ++
        (encodeU32 le (fmt.length + 1) ++ (fmt ++ [0]))))))))))) := by
    simp [encode_cdr_compressed_video, List.append_assoc]
  have hr1 : read_u32 le (encode_cdr_compressed_video le sec nsec fid data fmt) 4
      = some (sec, 8) := by
    rw [hd1]
    have h := read_u32_encode le [0, if le then 1 else 0, 0, 0]
      (encodeU32 le nsec ++ (encodeU32 le (fid.length + 1) ++ (fid ++ ([0] ++
        (pad4 (17 + fid.length) ++ (encodeU32 le data.length ++ (data ++
        (pad4 (align4 (17 + fid.length) + 4 + data.length) ++
        (encodeU32 le (fmt.length + 1) ++ (fmt ++ [0]))))))))))
      sec 4 (by simp [align4]) hsec
    simpa using h
  have hd2 : encode_cdr_compressed_video le sec nsec fid data fmt =
      ([0, if le then 1 else 0, 0, 0] ++ encodeU32 le sec) ++ (encodeU32 le nsec ++
        (encodeU32 le (fid.length + 1) ++ (fid ++ ([0] ++
        (pad4 (17 + fid.length) ++ (encodeU32 le data.length ++ (data ++
        (pad4 (align4 (17 + fid.length) + 4 + data.length) ++
        (encodeU32 le (fmt.length + 1) ++ (fmt ++ [0])))))))))) := by
    simp [encode_cdr_compressed_video, List.append_assoc]
  have hr2 : read_u32 le (encode_cdr_compressed_video le sec nsec fid data fmt) 8
      = some (nsec, 12) := by
    rw [hd2]
    have h := read_u32_encode le ([0, if le then 1 else 0, 0, 0] ++ encodeU32 le sec)
      (encodeU32 le (fid.length + 1) ++ (fid ++ ([0] ++
        (pad4 (17 + fid.length) ++ (encodeU32 le data.length ++ (data ++
        (pad4 (align4 (17 + fid.length) + 4 + data.length) ++
        (encodeU32 le (fmt.length + 1) ++ (fmt ++ [0])))))))))
      nsec 8 (by simp [align4, length_encodeU32]) hnsec
    simpa [length_encodeU32] using h
  have hd3 : encode_cdr_compressed_video le sec nsec fid data fmt =
      ([0, if le then 1 else 0, 0, 0] ++ encodeU32 le sec ++ encodeU32 le nsec) ++
        (encodeU32 le (fid.length + 1) ++ (fid ++ ([0] ++
        (pad4 (17 + fid.length) ++ (encodeU32 le data.length ++ (data ++
        (pad4 (align4 (17 + fid.length) + 4 + data.length) ++
        (encodeU32 le (fmt.length + 1) ++ (fmt ++ [0]))))))))) := by
    simp [encode_cdr_compressed_video, List.append_assoc]
  have hr3 : read_u32 le (encode_cdr_compressed_video le sec nsec fid data fmt) 12
      = some (fid.length + 1, 16) := by
    rw [hd3]
    have h := read_u32_encode le
      ([0, if le then 1 else 0, 0, 0] ++ encodeU32 le sec ++ encodeU32 le nsec)
      (fid ++ ([0] ++
        (pad4 (17 + fid.length) ++ (encodeU32 le data.length ++ (data ++
        (pad4 (align4 (17 + fid.length) + 4 + data.length) ++
        (encodeU32 le (fmt.length + 1) ++ (fmt ++ [0]))))))))
      (fid.length + 1) 12 (by simp [align4, length_encodeU32]) hfid
    simpa [length_encodeU32] using h
  have hd4 : encode_cdr_compressed_video le sec nsec fid data fmt =
      ([0, if le then 1 else 0, 0, 0] ++ encodeU32 le sec ++ encodeU32 le nsec ++
        encodeU32 le (fid.length + 1) ++ fid ++ [0] ++ pad4 (17 + fid.length)) ++
        (encodeU32 le data.length ++ (data ++
        (pad4 (align4 (17 + fid.length) + 4 + data.length) ++
        (encodeU32 le (fmt.length + 1) ++ (fmt ++ [0]))))) := by
    simp [encode_cdr_compressed_video, List.append_assoc]
  have hp4 : ([0, if le then 1 else 0, 0, 0] ++ encodeU32 le sec ++ encodeU32 le nsec ++
      encodeU32 le (fid.length + 1) ++ fid ++ [0] ++ pad4 (17 + fid.length)).length
      = align4 (17 + fid.length) := by
    simp only [List.length_append, List.length_cons, List.length_nil,
      length_encodeU32, pad4_length, align4]
    omega
  have hr4 : read_u32 le (encode_cdr_compressed_video le sec nsec fid data fmt)
      (16 + (fid.length + 1)) = some (data.length, align4 (17 + fid.length) + 4) := by
    rw [hd4]
    have h := read_u32_encode le
      ([0, if le then 1 else 0, 0, 0] ++ encodeU32 le sec ++ encodeU32 le nsec ++
        encodeU32 le (fid.length + 1) ++ fid ++ [0] ++ pad4 (17 + fid.length))
      (data ++ (pad4 (align4 (17 + fid.length) + 4 + data.length) ++
        (encodeU32 le (fmt.length + 1) ++ (fmt ++ [0]))))
      data.length (16 + (fid.length + 1))
      (by
        rw [hp4]
        simp only [align4]
        omega) hdata
    rw [h, hp4]
  have hd5 : encode_cdr_compressed_video le sec nsec fid data fmt =
      ([0, if le then 1 else 0, 0, 0] ++ encodeU32 le sec ++ encodeU32 le nsec ++
        encodeU32 le (fid.length + 1) ++ fid ++ [0] ++ pad4 (17 + fid.length) ++
        encodeU32 le data.length) ++
        (data ++ (pad4 (align4 (17 + fid.length) + 4 + data.length) ++
        (encodeU32 le (fmt.length + 1) ++ (fmt ++ [0])))) := by
    simp [encode_cdr_compressed_video, List.append_assoc]
  have hp5 : ([0, if le then 1 else 0, 0, 0] ++ encodeU32 le sec ++ encodeU32 le nsec ++
      encodeU32 le (fid.length + 1) ++ fid ++ [0] ++ pad4 (17 + fid.length) ++
      encodeU32 le data.length).length = align4 (17 + fid.length) + 4 := by
    simp only [List.length_append, List.length_cons, List.length_nil,
      length_encodeU32, pad4_length, align4]
    omega
  have hsl1 : (List.take data.length
      ((encode_cdr_compressed_video le sec nsec fid data fmt).drop
        (align4 (17 + fid.length) + 4))) = data := by
    have h := drop_take_append
      ([0, if le then 1 else 0, 0, 0] ++ encodeU32 le sec ++ encodeU32 le nsec ++
        encodeU32 le (fid.length + 1) ++ fid ++ [0] ++ pad4 (17 + fid.length) ++
        encodeU32 le data.length)
      data
      (pad4 (align4 (17 + fid.length) + 4 + data.length) ++
        (encodeU32 le (fmt.length + 1) ++ (fmt ++ [0])))
    rw [hp5] at h
    rw [hd5]
    exact h
  have hd6 : encode_cdr_compressed_video le sec nsec fid data fmt =
      ([0, if le then 1 else 0, 0, 0] ++ encodeU32 le sec ++ encodeU32 le nsec ++
        encodeU32 le (fid.length + 1) ++ fid ++ [0] ++ pad4 (17 + fid.length) ++
        encodeU32 le data.length ++ data ++
        pad4 (align4 (17 + fid.length) + 4 + data.length)) ++
        (encodeU32 le (fmt.length + 1) ++ (fmt ++ [0])) := by
    simp [encode_cdr_compressed_video, List.append_assoc]
  have hp6 : ([0, if le then 1 else 0, 0, 0] ++ encodeU32 le sec ++ encodeU32 le nsec ++
      encodeU32 le (fid.length + 1) ++ fid ++ [0] ++ pad4 (17 + fid.length) ++
      encodeU32 le data.length ++ data ++
      pad4 (align4 (17 + fid.length) + 4 + data.length)).length
      = align4 (align4 (17 + fid.length) + 4 + data.length) := by
    simp only [List.length_append, List.length_cons, List.length_nil,
      length_encodeU32, pad4_length, align4]
    omega
  have hr6 : read_u32 le (encode_cdr_compressed_video le sec nsec fid data fmt)
      (align4 (17 + fid.length) + 4 + data.length)
      = some (fmt.length + 1,
          align4 (align4 (17 + fid.length) + 4 + data.length) + 4) := by
    rw [hd6]
    have h := read_u32_encode le
      ([0, if le then 1 else 0, 0, 0] ++ encodeU32 le sec ++ encodeU32 le nsec ++
        encodeU32 le (fid.length + 1) ++ fid ++ [0] ++ pad4 (17 + fid.length) ++
        encodeU32 le data.length ++ data ++
        pad4 (align4 (17 + fid.length) + 4 + data.length))
      (fmt ++ [0]) (fmt.length + 1)
      (align4 (17 + fid.length) + 4 + data.length)
      (hp6.symm) hfmt
    rw [h, hp6]
  have hd7 : encode_cdr_compressed_video le sec nsec fid data fmt =
      ([0, if le then 1 else 0, 0, 0] ++ encodeU32 le sec ++ encodeU32 le nsec ++
        encodeU32 le (fid.length + 1) ++ fid ++ [0] ++ pad4 (17 + fid.length) ++
        encodeU32 le data.length ++ data ++
        pad4 (align4 (17 + fid.length) + 4 + data.length) ++
        encodeU32 le (fmt.length + 1)) ++ (fmt ++ [0]) := by
    simp [encode_cdr_compressed_video, List.append_assoc]
  have hp7 : ([0, if le then 1 else 0, 0, 0] ++ encodeU32 le sec ++ encodeU32 le nsec ++
      encodeU32 le (fid.length + 1) ++ fid ++ [0] ++ pad4 (17 + fid.length) ++
      encodeU32 le data.length ++ data ++
      pad4 (align4 (17 + fid.length) + 4 + data.length) ++
      encodeU32 le (fmt.length + 1)).length
      = align4 (align4 (17 + fid.length) + 4 + data.length) + 4 := by
    simp only [List.length_append, List.length_cons, List.length_nil,
      length_encodeU32, pad4_length, align4]
    omega
  have hsl2 : (List.take (fmt.length + 1 - 1)
      ((encode_cdr_compressed_video le sec nsec fid data fmt).drop
        (align4 (align4 (17 + fid.length) + 4 + data.length) + 4))) = fmt := by
    have h := drop_take_append
      ([0, if le then 1 else 0, 0, 0] ++ encodeU32 le sec ++ encodeU32 le nsec ++
        encodeU32 le (fid.length + 1) ++ fid ++ [0] ++ pad4 (17 + fid.length) ++
        encodeU32 le data.length ++ data ++
        pad4 (align4 (17 + fid.length) + 4 + data.length) ++
        encodeU32 le (fmt.length + 1))
      fmt [0]
    rw [hp7] at h
    rw [hd7, Nat.add_sub_cancel]
    exact h
  have hchk1 : ¬(16 + (fid.length + 1) >
      (encode_cdr_compressed_video le sec nsec fid data fmt).length) := by omega
  have hchk2 : ¬(align4 (17 + fid.length) + 4 + data.length >
      (encode_cdr_compressed_video le sec nsec fid data fmt).length) := by omega
  have hchk3 : ¬(fmt.length + 1 = 0 ∨
      align4 (align4 (17 + fid.length) + 4 + data.length) + 4 + (fmt.length + 1) >
        (encode_cdr_compressed_video le sec nsec fid data fmt).length) := by
    push_neg
    exact ⟨by omega, by omega⟩
  have hlen4 : ¬((encode_cdr_compressed_video le sec nsec fid data fmt).length < 4) := by
    omega
  simp only [decode_cdr_compressed_video]
  rw [if_neg hlen4, hflag, hr1]
  simp only [Option.some_bind]
  rw [hr2]
  simp only [Option.some_bind]
  rw [hr3]
  simp only [Option.some_bind]
  rw [if_neg hchk1, hr4]
  simp only [Option.some_bind]
  rw [if_neg hchk2, hr6]
  simp only [Option.some_bind]
  rw [if_neg hchk3, hsl1, hsl2]

/-- C2 witness: the round trip at the concrete example of the spec (frame_id
"abc", data [1, 2, 3], format "h26", little-endian). -/
theorem c2_decode_encode_roundtrip_witness :
    decode_cdr_compressed_video
        (encode_cdr_compressed_video true 1 2 [97, 98, 99] [1, 2, 3] [104, 50, 54])
      = some ([1, 2, 3], [104, 50, 54]) :=
  c2_decode_encode_roundtrip true 1 2 [97, 98, 99] [1, 2, 3] [104, 50, 54]
    (by decide) (by decide) (by decide) (by decide) (by decide)

theorem scanFrom_iff_aux (d : List Nat) :
    ∀ n i, d.length - i ≤ n →
      (scanFrom d i = true ↔ ∃ j, i ≤ j ∧ kf_nal_at_scanned d j) := by
  intro n
  induction n with
  | zero =>
    intro i hi
    rw [scanFrom, dif_neg (by omega : ¬ i + 4 < d.length)]
    constructor
    · intro hh
      exact absurd hh (by simp)
    · rintro ⟨j, hij, hk⟩
      exfalso
      unfold kf_nal_at_scanned at hk
      rcases hk with ⟨hlt, -⟩ | ⟨hlt, -⟩ <;> omega
  | succ n ih =>
    intro i hi
    rw [scanFrom]
    by_cases h : i + 4 < d.length
    case neg =>
      rw [dif_neg h]
      constructor
      · intro hh
        exact absurd hh (by simp)
      · rintro ⟨j, hij, hk⟩
        exfalso
        unfold kf_nal_at_scanned at hk
        rcases hk with ⟨hlt, -⟩ | ⟨hlt, -⟩ <;> omega
    case pos =>
    rw [dif_pos h]
    by_cases hc4 : d.getD i 0 = 0 ∧ d.getD (i + 1) 0 = 0 ∧ d.getD (i + 2) 0 = 0 ∧
        d.getD (i + 3) 0 = 1
    · obtain ⟨h0, h1, h2, h3⟩ := hc4
      rw [if_pos ⟨h0, h1, h2, h3⟩, if_pos h]
      by_cases hkey : d.getD (i + 4) 0 &&& 31 = 5 ∨ d.getD (i + 4) 0 &&& 31 = 7
      · rw [if_pos hkey]
        constructor
        · intro _
          refine ⟨i, Nat.le_refl i, ?_⟩
          unfold kf_nal_at_scanned
          exact Or.inl ⟨h, h0, h1, h2, h3, hkey⟩
        · intro _
          rfl
      · rw [if_neg hkey, ih (i + 4) (by omega)]
        constructor
        · rintro ⟨j, hij, hk⟩
          exact ⟨j, by omega, hk⟩
        · rintro ⟨j, hij, hk⟩
          by_cases hj : i + 4 ≤ j
          · exact ⟨j, hj, hk⟩
          · exfalso
            unfold kf_nal_at_scanned at hk
            have hcase : j = i ∨ j = i + 1 ∨ j = i + 2 ∨ j = i + 3 := by omega
            rcases hcase with rfl | rfl | rfl | rfl
            · rcases hk with ⟨-, -, -, -, -, hkey2⟩ | ⟨-, -, -, hc, -⟩
              · exact hkey hkey2
              · omega
            · rcases hk with ⟨-, -, -, hc, -, -⟩ | ⟨-, -, -, -, hkey2⟩
              · rw [show i + 1 + 2 = i + 3 by omega] at hc
                omega
              · rw [show i + 1 + 3 = i + 4 by omega] at hkey2
                exact hkey hkey2
            · rcases hk with ⟨-, -, hb, -, -, -⟩ | ⟨-, -, hb, -, -⟩ <;>
                · rw [show i + 2 + 1 = i + 3 by omega] at hb
                  omega
            · rcases hk with ⟨-, ha, -, -, -, -⟩ | ⟨-, ha, -, -, -⟩ <;> omega
    · by_cases hc3 : d.getD i 0 = 0 ∧ d.getD (i + 1) 0 = 0 ∧ d.getD (i + 2) 0 = 1
      · obtain ⟨h0, h1, h2⟩ := hc3
        rw [if_neg hc4, if_pos ⟨h0, h1, h2⟩, if_pos (by omega : i + 3 < d.length)]
        by_cases hkey : d.getD (i + 3) 0 &&& 31 = 5 ∨ d.getD (i + 3) 0 &&& 31 = 7
        · rw [if_pos hkey]
          constructor
          · intro _
            refine ⟨i, Nat.le_refl i, ?_⟩
            unfold kf_nal_at_scanned
            exact Or.inr ⟨h, h0, h1, h2, hkey⟩
          · intro _
            rfl
        · rw [if_neg hkey, ih (i + 3) (by omega)]
          constructor
          · rintro ⟨j, hij, hk⟩
            exact ⟨j, by omega, hk⟩
          · rintro ⟨j, hij, hk⟩
            by_cases hj : i + 3 ≤ j
            · exact ⟨j, hj, hk⟩
            · exfalso
              unfold kf_nal_at_scanned at hk
              have hcase : j = i ∨ j = i + 1 ∨ j = i + 2 := by omega
              rcases hcase with rfl | rfl | rfl
              · rcases hk with ⟨-, -, -, hc, -, -⟩ | ⟨-, -, -, -, hkey2⟩
                · omega
                · exact hkey hkey2
              · rcases hk with ⟨-, -, hb, -, -, -⟩ | ⟨-, -, hb, -, -⟩ <;>
                  · rw [show i + 1 + 1 = i + 2 by omega] at hb
                    omega
              · rcases hk with ⟨-, ha, -, -, -, -⟩ | ⟨-, ha, -, -, -⟩ <;> omega
      · rw [if_neg hc4, if_neg hc3, ih (i + 1) (by omega)]
        constructor
        · rintro ⟨j, hij, hk⟩
          exact ⟨j, by omega, hk⟩
        · rintro ⟨j, hij, hk⟩
          by_cases hj : i + 1 ≤ j
          · exact ⟨j, hj, hk⟩
          · have hji : j = i := by omega
            subst hji
            exfalso
            unfold kf_nal_at_scanned at hk
            rcases hk with ⟨-, ha, hb, hc, hd2, -⟩ | ⟨-, ha, hb, hc, -⟩
            · exact hc4 ⟨ha, hb, hc, hd2⟩
            · exact hc3 ⟨ha, hb, hc⟩

/-- C5 counterexample: the buffer 00 00 01 65 contains a type-5 (IDR) NAL
immediately following a 3-byte start code, but the scanner returns false,
because the source loop only runs while i + 4 < data.len() and here the NAL
type byte is the final byte of the buffer. -/
theorem c5_counterexample :
    ¬ ∀ d : List Nat, (∃ i, kf_nal_at d i) → h264_contains_keyframe d = true := by
  intro hcl
  have h1 : h264_contains_keyframe [0, 0, 1, 101] = true :=
    hcl [0, 0, 1, 101] ⟨0, by decide⟩
  have h2 : h264_contains_keyframe [0, 0, 1, 101] = false := by
    rw [h264_contains_keyframe, scanFrom]
    norm_num
  rw [h1] at h2
  exact absurd h2 (by decide)

/-- C5 amended: the scanner returns true if and only if some position i with
i + 4 < length carries a NAL whose 5 low type bits are 5 or 7 immediately
following a 3-byte or a 4-byte start code; for the 4-byte code this is
exactly containment, while a type-5 or type-7 NAL following a 3-byte start
code whose type byte is the final byte of the buffer lies outside the scanned
range and is not detected (and with no such occurrence the scanner returns
false). -/
theorem c5_scanner_iff_scanned_occurrence (d : List Nat) :
    h264_contains_keyframe d = true ↔ ∃ j, kf_nal_at_scanned d j := by
  rw [h264_contains_keyframe, scanFrom_iff_aux d d.length 0 (by omega)]
  constructor
  · rintro ⟨j, -, hk⟩
    exact ⟨j, hk⟩
  · rintro ⟨j, hk⟩
    exact ⟨j, Nat.zero_le j, hk⟩
